import Mathlib

/-!
Verification of the SODA API notebook (src/A1/SODA_API_demo.ipynb).

The notebook has three conceptual pieces, embedded here:
query building (requests.get with a params mapping, which percent-encodes
via urllib urlencode with quote_plus), fetching (requests.get followed by
the json method, with no status-code check anywhere), and CSV export (a
with-open block around csv.writer, a header writerow, then one writerow per
record built from direct dictionary indexing such as b[PermitNum-key]).

Byte strings (for URLs) are lists of natural numbers below 256; character
strings (for records and CSV) are lists of characters.
-/

/-- Character strings of the embedding, at the level the notebook uses them. -/
abbrev Str := List Char

/-- A JSON value, the result of parsing a response body. The notebook consumes
parsed JSON directly as a list of dicts. -/
inductive Json where
  | null : Json
  | bool (b : Bool) : Json
  | num (n : Int) : Json
  | str (s : Str) : Json
  | arr (elems : List Json) : Json
  | obj (fields : List (Str × Json)) : Json

/-- A record: one row of the dataset, a mapping from field name to value. The
claims only exercise string-valued fields, which is how the notebook export
reads them. -/
abbrev Record := List (Str × Str)

/-- View of a list of string-valued records as the parsed JSON array of objects
that produced it; used to connect a mocked HTTP body to the export input. -/
def recordsAsJson (rs : List Record) : Json :=
  Json.arr (rs.map fun r => Json.obj (r.map fun p => (p.1, Json.str p.2)))

/-- An HTTP response as the client sees it: the status code and the result of
JSON-parsing the body (none when the body is not valid JSON; the JSON parse is
the json method of the requests library, modelled as already applied). -/
structure HttpResponse where
  status : Nat
  body : Option Json

/-- Failure kinds named by the spec. The notebook code can only raise the
decode failure (from the json method on an unparseable body); it contains no
status check, so the request failure is never produced by it. -/
inductive FetchError where
  | requestError (status : Nat) : FetchError
  | decodeError : FetchError

/-- The Fetcher, from the notebook lines bp_request = requests.get(...) and
bp_data = bp_request.json(). There is no status-code check of any kind: the
parsed body is returned whatever the status, and the only failure is a json
parse failure. -/
def fetch (resp : HttpResponse) : Except FetchError Json :=
  match resp.body with
  | none => Except.error FetchError.decodeError
  | some j => Except.ok j

/-- Dictionary indexing b[k] on a record, as an option: none models the
KeyError the notebook raises when the field is missing. -/
def lookupField (r : Record) (k : Str) : Option Str :=
  match r.find? (fun p => decide (p.1 = k)) with
  | some p => some p.2
  | none => none

/-- Evaluation of the tuple passed to writer.writerow in the export loop: the
projected cells of one record in projection order, or none as soon as one
field is missing (the KeyError fires before anything of this row is written). -/
def projectRecord (proj : List (Str × Str)) (r : Record) : Option (List Str) :=
  match proj with
  | [] => some []
  | p :: ps =>
    match lookupField r p.2, projectRecord ps r with
    | some v, some vs => some (v :: vs)
    | _, _ => none

/-- State threaded through the export: the result set being read, the rows
written so far to the open file, and whether the code is still running
normally (ok false models the KeyError propagating out of the loop). -/
structure ExportState where
  resultSet : List Record
  fileRows : List (List Str)
  ok : Bool

/-- The export loop (for b in bp_data: writer.writerow((...))): each record
that projects fully appends one row to the file; the first record with a
missing field raises, ending the loop with ok false and everything written so
far kept in the file. -/
def exportLoopS (proj : List (Str × Str)) : List Record → ExportState → ExportState
  | [], s => s
  | r :: rest, s =>
    match projectRecord proj r with
    | none => { s with ok := false }
    | some row => exportLoopS proj rest { s with fileRows := s.fileRows ++ [row] }

/-- The whole export cell: write the header row, then run the loop over the
result set held in the state. -/
def runExport (proj : List (Str × Str)) (s : ExportState) : ExportState :=
  exportLoopS proj s.resultSet { s with fileRows := s.fileRows ++ [proj.map Prod.fst] }

/-- The export applied to a result set, starting from the just-opened
(truncated, hence empty) output file. -/
def exportCsv (proj : List (Str × Str)) (rs : List Record) : ExportState :=
  runExport proj { resultSet := rs, fileRows := [], ok := true }

/-- Whether csv.writer must quote a field under its default minimal-quoting
rule: the field contains the delimiter, the quote character, or a
line-terminator character. -/
def needsQuote (s : Str) : Bool :=
  s.any fun c => decide (c = ',' ∨ c = '"' ∨ c = '\r' ∨ c = '\n')

/-- Doubling of embedded quote characters, the default doubling rule of
csv.writer. -/
def escapeQuotes (s : Str) : Str :=
  s.flatMap fun c => if c = '"' then ['"', '"'] else [c]

/-- One CSV cell as csv.writer emits it: quoted with doubled inner quotes when
needed, verbatim otherwise. -/
def writeField (s : Str) : Str :=
  if needsQuote s then '"' :: escapeQuotes s ++ ['"'] else s

/-- Collapse doubled quote characters, the step a standard CSV reader performs
inside a quoted cell. -/
def unDouble : Str → Str
  | [] => []
  | [c] => [c]
  | c :: d :: rest =>
    if c = '"' ∧ d = '"' then '"' :: unDouble rest else c :: unDouble (d :: rest)

/-- A standard CSV parse of one cell: a cell opening with a quote has its outer
quotes stripped and its doubled quotes collapsed; any other cell is literal. -/
def parseField (s : Str) : Str :=
  match s with
  | [] => []
  | c :: rest => if c = '"' then unDouble rest.dropLast else c :: rest

/-- Join chunks with a separator element between consecutive chunks; used both
for the CSV delimiter and for the ampersands of urlencode. -/
def joinSep {α : Type} (sep : α) : List (List α) → List α
  | [] => []
  | [t] => t
  | t :: u :: ts => t ++ sep :: joinSep sep (u :: ts)

/-- One line of the output file: the written cells joined by the comma
delimiter. -/
def renderRow (row : List Str) : Str :=
  joinSep ',' (row.map writeField)

/-- The text content of the output file: each written row rendered and
terminated by CRLF, the default line terminator of csv.writer. -/
def fileContent (rows : List (List Str)) : Str :=
  (rows.map fun row => renderRow row ++ ['\r', '\n']).flatten

/-- Events on the output file handle. The closed event stands for the flush
and release performed when the handle is closed. -/
inductive FileEvent where
  | opened : FileEvent
  | wrote (row : List Str) : FileEvent
  | closed : FileEvent

/-- Trace of file-handle events of one export call. The with-open block of the
notebook opens the handle, the body writes its rows, and the with statement
closes (flushing) the handle on every exit path: both when the loop completes
and when a KeyError aborts it mid-write, the rows actually written are
followed by the close. -/
def exportEvents (proj : List (Str × Str)) (rs : List Record) : List FileEvent :=
  FileEvent.opened :: ((exportCsv proj rs).fileRows.map FileEvent.wrote) ++ [FileEvent.closed]

/-- Bytes never percent-encoded by the urllib quoting: ASCII letters, digits,
underscore, dot, dash, tilde (urlencode passes an empty extra-safe set, so
everything else is encoded). -/
def isSafeByte (b : Nat) : Bool :=
  decide ((65 ≤ b ∧ b ≤ 90) ∨ (97 ≤ b ∧ b ≤ 122) ∨ (48 ≤ b ∧ b ≤ 57) ∨
    b = 95 ∨ b = 46 ∨ b = 45 ∨ b = 126)

/-- Uppercase hexadecimal digit byte, as urllib percent escapes emit it. -/
def hexDigit (n : Nat) : Nat :=
  if n < 10 then 48 + n else 55 + n

/-- Plus-encoding of one byte, the quote-plus rule used by urlencode: space
becomes plus, safe bytes pass through, everything else becomes a percent
escape. -/
def quotePlusByte (b : Nat) : List Nat :=
  if b = 32 then [43]
  else if isSafeByte b then [b]
  else [37, hexDigit (b / 16), hexDigit (b % 16)]

/-- The quote-plus encoding over a whole byte string. -/
def quote_plus (s : List Nat) : List Nat :=
  s.flatMap quotePlusByte

/-- The urlencode function of urllib with its default quote-plus quoting: each
pair becomes name, equals sign, value, with both sides quoted, and the pairs
are joined by ampersands. This is what requests does with its params
argument. -/
def urlencode (params : List (List Nat × List Nat)) : List Nat :=
  joinSep 38 (params.map fun p => quote_plus p.1 ++ 61 :: quote_plus p.2)

/-- The URL requests.get builds from an endpoint without an existing query
string and a params mapping: the endpoint, a question mark, and the encoded
query string. -/
def build_url (endpoint : List Nat) (params : List (List Nat × List Nat)) : List Nat :=
  endpoint ++ 63 :: urlencode params

/-- Value of one hexadecimal digit byte, either case, or none. -/
def fromHex (d : Nat) : Option Nat :=
  if 48 ≤ d ∧ d ≤ 57 then some (d - 48)
  else if 65 ≤ d ∧ d ≤ 70 then some (d - 55)
  else if 97 ≤ d ∧ d ≤ 102 then some (d - 87)
  else none

/-- Standard URL decoding of one query-string token: plus becomes space, a
percent escape becomes its byte, anything else is literal. -/
def unquote_plus : List Nat → List Nat
  | [] => []
  | c :: rest =>
    if c = 43 then 32 :: unquote_plus rest
    else if c = 37 then
      match rest with
      | h :: l :: rest2 =>
        match fromHex h, fromHex l with
        | some hi, some lo => (16 * hi + lo) :: unquote_plus rest2
        | _, _ => c :: unquote_plus (h :: l :: rest2)
      | [] => [c]
      | [d] => c :: unquote_plus [d]
    else c :: unquote_plus rest
termination_by l => l.length
decreasing_by all_goals (simp; try omega)

/-- Split a query string on ampersands. -/
def splitAmp : List Nat → List (List Nat)
  | [] => [[]]
  | c :: rest =>
    match splitAmp rest with
    | [] => [[c]]
    | t :: ts => if c = 38 then [] :: t :: ts else (c :: t) :: ts

/-- Split a token at its first equals sign, or none when it has none. -/
def splitFirstEq : List Nat → Option (List Nat × List Nat)
  | [] => none
  | c :: rest =>
    if c = 61 then some ([], rest)
    else
      match splitFirstEq rest with
      | some nv => some (c :: nv.1, nv.2)
      | none => none

/-- Decode one name-value token: both sides unquoted; an empty token is
skipped, and a token without an equals sign decodes to a blank value. -/
def parseToken (t : List Nat) : Option (List Nat × List Nat) :=
  if t = [] then none
  else
    match splitFirstEq t with
    | some nv => some (unquote_plus nv.1, unquote_plus nv.2)
    | none => some (unquote_plus t, [])

/-- Standard URL decoding of a whole query string into its name-value pairs:
the form-urlencoded parse, with blank values kept. -/
def parse_qsl (qs : List Nat) : List (List Nat × List Nat) :=
  (splitAmp qs).filterMap parseToken

/-- Bytes of an ASCII string literal; UTF-8 agrees with the code point on the
ASCII range used by every literal in this development. -/
def strBytes (s : String) : List Nat :=
  s.toList.map Char.toNat

/-- Characters of a string literal. -/
def strChars (s : String) : Str :=
  s.toList

/-- Projection of the end-to-end scenario: output column names paired with
source field names. -/
def c2Proj : List (Str × Str) :=
  [(strChars (r"permit number"), strChars (r"PermitNum")),
   (strChars (r"description"), strChars (r"Description"))]

/-- Records parsed from the mocked response body of the end-to-end scenario;
the second record has no Description field. -/
def c2Records : List Record :=
  [[(strChars (r"PermitNum"), strChars (r"A1")), (strChars (r"Description"), strChars (r"x"))],
   [(strChars (r"PermitNum"), strChars (r"A2"))]]

/-- The export entry point is definitionally the loop started on a file
holding only the header row. -/
lemma exportCsv_eq (proj : List (Str × Str)) (rs : List Record) :
    exportCsv proj rs
      = exportLoopS proj rs { resultSet := rs, fileRows := [proj.map Prod.fst], ok := true } :=
  rfl

lemma fromHex_hexDigit : ∀ x < 16, fromHex (hexDigit x) = some x := by decide

lemma hexDigit_ne_amp_eq (x : Nat) : hexDigit x ≠ 38 ∧ hexDigit x ≠ 61 := by
  unfold hexDigit
  split <;> omega

lemma isSafeByte_ne (b : Nat) (h : isSafeByte b = true) :
    b ≠ 38 ∧ b ≠ 61 ∧ b ≠ 43 ∧ b ≠ 37 := by
  have := of_decide_eq_true h
  omega

lemma mem_quote_plus_ne (c : Nat) (s : List Nat) (h : c ∈ quote_plus s) :
    c ≠ 38 ∧ c ≠ 61 := by
  rw [quote_plus, List.mem_flatMap] at h
  obtain ⟨b, _, hc⟩ := h
  unfold quotePlusByte at hc
  split at hc
  · simp at hc
    omega
  · split at hc
    · next hsafe =>
      simp at hc
      subst hc
      exact ⟨(isSafeByte_ne _ hsafe).1, (isSafeByte_ne _ hsafe).2.1⟩
    · simp at hc
      rcases hc with h1 | h2 | h3
      · omega
      · subst h2
        exact hexDigit_ne_amp_eq _
      · subst h3
        exact hexDigit_ne_amp_eq _

lemma unquote_plus_nil : unquote_plus [] = [] := by
  rw [unquote_plus.eq_def]

lemma unquote_plus_cons_plain (c : Nat) (t : List Nat) (h1 : c ≠ 43) (h2 : c ≠ 37) :
    unquote_plus (c :: t) = c :: unquote_plus t := by
  rw [unquote_plus.eq_def]
  simp only [if_neg h1, if_neg h2]

lemma unquote_plus_escape (b : Nat) (t : List Nat) (hb : b < 256) :
    unquote_plus (37 :: hexDigit (b / 16) :: hexDigit (b % 16) :: t) = b :: unquote_plus t := by
  have h1 : fromHex (hexDigit (b / 16)) = some (b / 16) := fromHex_hexDigit _ (by omega)
  have h2 : fromHex (hexDigit (b % 16)) = some (b % 16) := fromHex_hexDigit _ (by omega)
  rw [unquote_plus.eq_def]
  simp only [h1, h2, if_neg (by omega : (37 : Nat) ≠ 43), if_pos rfl, if_true]
  have h3 : 16 * (b / 16) + b % 16 = b := by omega
  rw [h3]

lemma quotePlusByte_unquote (b : Nat) (t : List Nat) (hb : b < 256) :
    unquote_plus (quotePlusByte b ++ t) = b :: unquote_plus t := by
  unfold quotePlusByte
  split
  · next h32 =>
    subst h32
    rw [List.cons_append, List.nil_append, unquote_plus.eq_def]
    simp
  · next h32 =>
    split
    · next hsafe =>
      rw [List.cons_append, List.nil_append]
      have hne := isSafeByte_ne b hsafe
      exact unquote_plus_cons_plain b t hne.2.2.1 hne.2.2.2
    · simp only [List.cons_append, List.nil_append]
      exact unquote_plus_escape b t hb

lemma unquote_quote_append (s t : List Nat) (h : ∀ b ∈ s, b < 256) :
    unquote_plus (quote_plus s ++ t) = s ++ unquote_plus t := by
  induction s with
  | nil => simp [quote_plus, unquote_plus_nil]
  | cons b s2 ih =>
    rw [quote_plus, List.flatMap_cons, List.append_assoc]
    rw [quotePlusByte_unquote b _ (h b (by simp))]
    have hrec := ih (fun x hx => h x (by simp [hx]))
    rw [quote_plus] at hrec
    rw [hrec, List.cons_append]

lemma unquote_plus_quote_plus (s : List Nat) (h : ∀ b ∈ s, b < 256) :
    unquote_plus (quote_plus s) = s := by
  have := unquote_quote_append s [] h
  simpa [unquote_plus_nil] using this

lemma splitAmp_ne_nil (l : List Nat) : splitAmp l ≠ [] := by
  cases l with
  | nil => simp [splitAmp]
  | cons c rest =>
    cases hr : splitAmp rest with
    | nil => simp [splitAmp, hr]
    | cons t ts =>
      simp only [splitAmp, hr]
      split <;> simp

lemma splitAmp_no_sep (a : List Nat) (h : ∀ c ∈ a, c ≠ 38) : splitAmp a = [a] := by
  induction a with
  | nil => rfl
  | cons c rest ih =>
    have hr : splitAmp rest = [rest] := ih (fun x hx => h x (by simp [hx]))
    simp [splitAmp, hr, h c (by simp)]

lemma splitAmp_append (a b : List Nat) (h : ∀ c ∈ a, c ≠ 38) :
    splitAmp (a ++ 38 :: b) = a :: splitAmp b := by
  induction a with
  | nil =>
    simp only [List.nil_append]
    cases hb : splitAmp b with
    | nil => exact absurd hb (splitAmp_ne_nil b)
    | cons t ts => simp [splitAmp, hb]
  | cons c rest ih =>
    have hrec := ih (fun x hx => h x (by simp [hx]))
    simp [splitAmp, hrec, h c (by simp)]

lemma splitFirstEq_append (n v : List Nat) (h : ∀ c ∈ n, c ≠ 61) :
    splitFirstEq (n ++ 61 :: v) = some (n, v) := by
  induction n with
  | nil => simp [splitFirstEq]
  | cons c rest ih =>
    have hrec := ih (fun x hx => h x (by simp [hx]))
    simp [splitFirstEq, hrec, h c (by simp)]

lemma token_ne_nil (n v : List Nat) : quote_plus n ++ 61 :: quote_plus v ≠ [] := by
  simp

lemma parseToken_encoded (n v : List Nat) (hn : ∀ b ∈ n, b < 256) (hv : ∀ b ∈ v, b < 256) :
    parseToken (quote_plus n ++ 61 :: quote_plus v) = some (n, v) := by
  rw [parseToken, if_neg (token_ne_nil n v)]
  rw [splitFirstEq_append _ _ (fun c hc => (mem_quote_plus_ne c _ hc).2)]
  simp only []
  rw [unquote_plus_quote_plus _ hn, unquote_plus_quote_plus _ hv]

lemma parse_qsl_urlencode (params : List (List Nat × List Nat))
    (h : ∀ p ∈ params, (∀ b ∈ p.1, b < 256) ∧ (∀ b ∈ p.2, b < 256)) :
    parse_qsl (urlencode params) = params := by
  induction params with
  | nil => rfl
  | cons p ps ih =>
    have hp := h p (by simp)
    have htok_ne_amp : ∀ c ∈ quote_plus p.1 ++ 61 :: quote_plus p.2, c ≠ 38 := by
      intro c hc
      rcases List.mem_append.mp hc with h1 | h2
      · exact (mem_quote_plus_ne c _ h1).1
      · rcases List.mem_cons.mp h2 with h3 | h4
        · omega
        · exact (mem_quote_plus_ne c _ h4).1
    have htok := parseToken_encoded p.1 p.2 hp.1 hp.2
    cases ps with
    | nil =>
      show parse_qsl (joinSep 38 [quote_plus p.1 ++ 61 :: quote_plus p.2]) = [p]
      rw [show joinSep 38 [quote_plus p.1 ++ 61 :: quote_plus p.2]
            = quote_plus p.1 ++ 61 :: quote_plus p.2 from rfl]
      rw [parse_qsl, splitAmp_no_sep _ htok_ne_amp, List.filterMap_cons, htok]
      rfl
    | cons q ps2 =>
      have ihq := ih (fun x hx => h x (by simp [hx]))
      show parse_qsl (joinSep 38
          ((quote_plus p.1 ++ 61 :: quote_plus p.2)
            :: (q :: ps2).map (fun r => quote_plus r.1 ++ 61 :: quote_plus r.2))) = p :: q :: ps2
      rw [show ((q :: ps2).map (fun r => quote_plus r.1 ++ 61 :: quote_plus r.2))
            = (quote_plus q.1 ++ 61 :: quote_plus q.2)
              :: ps2.map (fun r => quote_plus r.1 ++ 61 :: quote_plus r.2) from rfl]
      rw [show joinSep 38
            ((quote_plus p.1 ++ 61 :: quote_plus p.2)
              :: (quote_plus q.1 ++ 61 :: quote_plus q.2)
              :: ps2.map (fun r => quote_plus r.1 ++ 61 :: quote_plus r.2))
            = (quote_plus p.1 ++ 61 :: quote_plus p.2)
              ++ 38 :: joinSep 38
                ((quote_plus q.1 ++ 61 :: quote_plus q.2)
                  :: ps2.map (fun r => quote_plus r.1 ++ 61 :: quote_plus r.2)) from rfl]
      rw [parse_qsl, splitAmp_append _ _ htok_ne_amp, List.filterMap_cons, htok]
      rw [show (splitAmp (joinSep 38
            ((quote_plus q.1 ++ 61 :: quote_plus q.2)
              :: ps2.map (fun r => quote_plus r.1 ++ 61 :: quote_plus r.2)))).filterMap parseToken
            = parse_qsl (urlencode (q :: ps2)) from rfl]
      rw [ihq]

/-- Claim C5: for every QueryParameters mapping, the Query Builder
percent-encodes each parameter value per standard URL query-encoding rules,
and applying standard URL-decoding to the query string of the built URL
recovers exactly the original parameter names and values: the
encode-then-decode round trip is the identity on the mapping. The hypothesis
states that names and values are byte strings. -/
theorem c5_urlencode_roundtrip (endpoint : List Nat) (params : List (List Nat × List Nat))
    (h : ∀ p ∈ params, (∀ b ∈ p.1, b < 256) ∧ (∀ b ∈ p.2, b < 256)) :
    parse_qsl ((build_url endpoint params).drop (endpoint.length + 1)) = params := by
  have hb : build_url endpoint params = (endpoint ++ [63]) ++ urlencode params := by
    simp [build_url]
  have hl : endpoint.length + 1 = (endpoint ++ [63]).length := by simp
  rw [hb, hl, List.drop_left]
  exact parse_qsl_urlencode params h

/-- Witness for C5 at the endpoint of the end-to-end scenario with the limit
parameter. -/
theorem c5_urlencode_roundtrip_witness :
    parse_qsl ((build_url (strBytes (r"https://example.test/resource/abc.json"))
        [(strBytes (r"$limit"), strBytes (r"2"))]).drop
        ((strBytes (r"https://example.test/resource/abc.json")).length + 1))
      = [(strBytes (r"$limit"), strBytes (r"2"))] :=
  c5_urlencode_roundtrip _ _ (by decide)


lemma escapeQuotes_cons (c : Char) (t : Str) :
    escapeQuotes (c :: t) = (if c = '"' then ['"', '"'] else [c]) ++ escapeQuotes t := by
  rw [escapeQuotes, escapeQuotes, List.flatMap_cons]

lemma escapeQuotes_eq_nil (s : Str) (h : escapeQuotes s = []) : s = [] := by
  cases s with
  | nil => rfl
  | cons c t =>
    exfalso
    rw [escapeQuotes_cons] at h
    by_cases hc : c = '"' <;> simp [hc] at h

lemma unDouble_escapeQuotes (s : Str) : unDouble (escapeQuotes s) = s := by
  induction s with
  | nil => rfl
  | cons c t ih =>
    rw [escapeQuotes_cons]
    by_cases hc : c = '"'
    · rw [if_pos hc, hc]
      show unDouble ('"' :: '"' :: escapeQuotes t) = '"' :: t
      simp [unDouble, ih]
    · rw [if_neg hc]
      show unDouble (c :: escapeQuotes t) = c :: t
      cases he : escapeQuotes t with
      | nil =>
        have ht := escapeQuotes_eq_nil t he
        subst ht
        simp [unDouble]
      | cons d ts =>
        have hcd : ¬(c = '"' ∧ d = '"') := fun hx => hc hx.1
        simp only [unDouble, if_neg hcd]
        rw [← he, ih]

lemma needsQuote_false_mem (s : Str) (h : needsQuote s = false) :
    ∀ c ∈ s, ¬(c = ',' ∨ c = '"' ∨ c = '\r' ∨ c = '\n') := by
  intro c hc habs
  have : s.any (fun c => decide (c = ',' ∨ c = '"' ∨ c = '\r' ∨ c = '\n')) = true :=
    List.any_eq_true.mpr ⟨c, hc, decide_eq_true habs⟩
  rw [needsQuote] at h
  rw [h] at this
  exact Bool.noConfusion this

/-- Claim C6: for every field value string, including values containing the
output delimiter or the quote character, the CSV Exporter quotes and escapes
the value per standard CSV quoting rules, so that writing the value to a CSV
cell and then parsing that cell back with a standard CSV parser yields the
original string: the write-then-parse round trip is the identity. -/
theorem c6_csv_field_roundtrip (s : Str) : parseField (writeField s) = s := by
  rw [writeField]
  by_cases hq : needsQuote s = true
  · rw [if_pos hq]
    show parseField ('"' :: (escapeQuotes s ++ ['"'])) = s
    simp only [parseField, if_pos rfl]
    have hdl : (escapeQuotes s ++ ['"']).dropLast = escapeQuotes s := by simp
    rw [hdl, unDouble_escapeQuotes]
    simp
  · rw [if_neg hq]
    cases s with
    | nil => rfl
    | cons c t =>
      have hfalse : needsQuote (c :: t) = false := by
        cases hnq : needsQuote (c :: t) with
        | false => rfl
        | true => exact absurd hnq hq
      have hc : ¬(c = '"') :=
        fun hcq => (needsQuote_false_mem _ hfalse c (by simp)) (Or.inr (Or.inl hcq))
      simp only [parseField, if_neg hc]

lemma exportLoopS_resultSet (proj : List (Str × Str)) :
    ∀ (rs : List Record) (s : ExportState), (exportLoopS proj rs s).resultSet = s.resultSet := by
  intro rs
  induction rs with
  | nil => intro s; rfl
  | cons r rest ih =>
    intro s
    cases hp : projectRecord proj r with
    | none => simp [exportLoopS, hp]
    | some row => simp [exportLoopS, hp, ih]

/-- Claim C10: the CSV Exporter never modifies the ResultSet it consumes: for
every starting state, after the export operation completes (successfully or
with a mid-write failure) the sequence of records, with every field of every
record, is equal to its value before the export; the only component the export
changes is the output file (and the ok flag). -/
theorem c10_export_preserves_resultset (proj : List (Str × Str)) (s : ExportState) :
    (runExport proj s).resultSet = s.resultSet := by
  rw [runExport, exportLoopS_resultSet]

lemma exportLoopS_fileRows (proj : List (Str × Str)) :
    ∀ (rs : List Record) (s : ExportState), ∃ dataRows : List (List Str),
      (exportLoopS proj rs s).fileRows = s.fileRows ++ dataRows ∧
      List.Forall₂ (fun r row => projectRecord proj r = some row) (rs.take dataRows.length) dataRows ∧
      ((exportLoopS proj rs s).ok = true → s.ok = true ∧ dataRows.length = rs.length) := by
  intro rs
  induction rs with
  | nil =>
    intro s
    exact ⟨[], by simp [exportLoopS], by simp, fun h => ⟨h, rfl⟩⟩
  | cons r rest ih =>
    intro s
    cases hp : projectRecord proj r with
    | none =>
      refine ⟨[], by simp [exportLoopS, hp], by simp, fun hok => absurd hok ?_⟩
      simp [exportLoopS, hp]
    | some row =>
      obtain ⟨dr, h1, h2, h3⟩ := ih { s with fileRows := s.fileRows ++ [row] }
      have hstep : exportLoopS proj (r :: rest) s
          = exportLoopS proj rest { s with fileRows := s.fileRows ++ [row] } := by
        simp [exportLoopS, hp]
      refine ⟨row :: dr, ?_, ?_, ?_⟩
      · rw [hstep, h1]
        simp
      · rw [List.length_cons, List.take_succ_cons]
        exact List.Forall₂.cons hp h2
      · intro hok
        rw [hstep] at hok
        obtain ⟨ho, hl⟩ := h3 hok
        exact ⟨ho, by simp [hl]⟩

/-- Claim C8: for every ResultSet and every ordered projection list, the first
row of the output file is exactly the caller-specified header, each subsequent
row holds the projected fields of the corresponding record in the
caller-specified column order with input order preserved (row i+1 comes from
record i), nothing is written after the last data row, and when the export
runs to completion there is one data row per record. -/
theorem c8_output_structure (proj : List (Str × Str)) (rs : List Record) :
    ∃ dataRows : List (List Str),
      (exportCsv proj rs).fileRows = (proj.map Prod.fst) :: dataRows ∧
      List.Forall₂ (fun r row => projectRecord proj r = some row) (rs.take dataRows.length) dataRows ∧
      ((exportCsv proj rs).ok = true → dataRows.length = rs.length) := by
  obtain ⟨dr, h1, h2, h3⟩ := exportLoopS_fileRows proj rs
    { resultSet := rs, fileRows := [proj.map Prod.fst], ok := true }
  refine ⟨dr, ?_, h2, ?_⟩
  · rw [exportCsv_eq, h1]
    rfl
  · intro hok
    rw [exportCsv_eq] at hok
    exact (h3 hok).2

/-- Claim C9: on every exit path of the CSV Exporter, normal completion and
KeyError abort alike, the output file handle is closed (and with it flushed)
after the rows written and before the export call returns or propagates its
failure: the event trace of every export call ends with the close event, which
occurs nowhere earlier. -/
theorem c9_handle_closed_on_all_paths (proj : List (Str × Str)) (rs : List Record) :
    ∃ pre : List FileEvent, exportEvents proj rs = pre ++ [FileEvent.closed] ∧
      FileEvent.closed ∉ pre := by
  refine ⟨FileEvent.opened :: ((exportCsv proj rs).fileRows.map FileEvent.wrote), ?_, ?_⟩
  · simp [exportEvents]
  · intro h
    rcases List.mem_cons.mp h with h1 | h2
    · exact FileEvent.noConfusion h1
    · rcases List.mem_map.mp h2 with ⟨row, _, heq⟩
      exact FileEvent.noConfusion heq

lemma projectRecord_none_of_missing (proj : List (Str × Str)) (r : Record)
    (h : ∃ p ∈ proj, lookupField r p.2 = none) : projectRecord proj r = none := by
  induction proj with
  | nil =>
    obtain ⟨p, hp, _⟩ := h
    simp at hp
  | cons q ps ih =>
    obtain ⟨p, hp, hnone⟩ := h
    rcases List.mem_cons.mp hp with h1 | hmem
    · subst h1
      simp [projectRecord, hnone]
    · have hrec := ih ⟨p, hmem, hnone⟩
      cases hl : lookupField r q.2 <;> simp [projectRecord, hrec, hl]

lemma exportLoopS_aborts (proj : List (Str × Str)) :
    ∀ (rs : List Record) (s : ExportState) (r : Record), r ∈ rs →
      projectRecord proj r = none → (exportLoopS proj rs s).ok = false := by
  intro rs
  induction rs with
  | nil =>
    intro s r hr
    simp at hr
  | cons a rest ih =>
    intro s r hr hnone
    rcases List.mem_cons.mp hr with h1 | hmem
    · subst h1
      simp [exportLoopS, hnone]
    · cases hp : projectRecord proj a with
      | none => simp [exportLoopS, hp]
      | some row =>
        have hstep : exportLoopS proj (a :: rest) s
            = exportLoopS proj rest { s with fileRows := s.fileRows ++ [row] } := by
          simp [exportLoopS, hp]
        rw [hstep]
        exact ih _ r hmem hnone

/-- Counterexample to claim C1 as stated: for the projection with requested
source fields P and D and a result set holding one record with only the field
P, the export does not succeed with an empty-string cell for D; it aborts with
no data row written at all. -/
theorem c1_counterexample :
    ¬ ((exportCsv [([ 'p' ], [ 'P' ]), ([ 'd' ], [ 'D' ])] [[([ 'P' ], [ 'A' ])]]).ok = true ∧
       (exportCsv [([ 'p' ], [ 'P' ]), ([ 'd' ], [ 'D' ])] [[([ 'P' ], [ 'A' ])]]).fileRows
         = [[[ 'p' ], [ 'd' ]], [[ 'A' ], []]]) := by
  decide

/-- Claim C1 amended: a Record lacking one of the requested source fields makes
the export fail, not succeed: the direct dictionary indexing in the writerow
tuple raises a KeyError, so the export aborts with the failure flag set (the
notebook prose itself warns that missing values can lead to errors during
export). -/
theorem c1_missing_field_aborts_export (proj : List (Str × Str)) (rs : List Record)
    (r : Record) (hr : r ∈ rs) (hmiss : ∃ p ∈ proj, lookupField r p.2 = none) :
    (exportCsv proj rs).ok = false := by
  rw [exportCsv_eq]
  exact exportLoopS_aborts proj rs _ r hr (projectRecord_none_of_missing proj r hmiss)

/-- Witness for the amended C1 at the one-record scenario that lacks the second
requested field. -/
theorem c1_missing_field_aborts_export_witness :
    (exportCsv [([ 'p' ], [ 'P' ]), ([ 'd' ], [ 'D' ])] [[([ 'P' ], [ 'A' ])]]).ok = false :=
  c1_missing_field_aborts_export _ _ [([ 'P' ], [ 'A' ])] (by decide) (by decide)

lemma exportLoopS_total (proj : List (Str × Str)) :
    ∀ (rs : List Record) (s : ExportState), (∀ r ∈ rs, projectRecord proj r ≠ none) →
      (exportLoopS proj rs s).fileRows.length = s.fileRows.length + rs.length ∧
      (exportLoopS proj rs s).ok = s.ok := by
  intro rs
  induction rs with
  | nil =>
    intro s _
    exact ⟨by simp [exportLoopS], rfl⟩
  | cons r rest ih =>
    intro s h
    cases hp : projectRecord proj r with
    | none => exact absurd hp (h r (by simp))
    | some row =>
      obtain ⟨h1, h2⟩ := ih { s with fileRows := s.fileRows ++ [row] }
        (fun x hx => h x (by simp [hx]))
      have hstep : exportLoopS proj (r :: rest) s
          = exportLoopS proj rest { s with fileRows := s.fileRows ++ [row] } := by
        simp [exportLoopS, hp]
      constructor
      · rw [hstep, h1]
        simp
        omega
      · rw [hstep, h2]

/-- Counterexample to claim C4 as stated: a ResultSet obtained from the JSON
array holding one object whose only field is not among the projected source
fields yields a one-line file (just the header), not the two lines the claim
requires for N equal to one. -/
theorem c4_counterexample :
    (exportCsv [([ 'x' ], [ 'f' ])] [[([ 'a' ], [ 'v' ])]]).fileRows.length
      ≠ [[([ 'a' ], [ 'v' ])]].length + 1 := by
  decide

/-- Claim C4 amended: whenever every record of the ResultSet carries all the
projected source fields, the CSV Exporter writes exactly N plus one rows, the
header plus one row per record, and completes normally; in particular an empty
ResultSet yields only the header line. When some record misses a field the
export aborts early with fewer rows. -/
theorem c4_rows_on_success (proj : List (Str × Str)) (rs : List Record)
    (h : ∀ r ∈ rs, projectRecord proj r ≠ none) :
    (exportCsv proj rs).fileRows.length = rs.length + 1 ∧ (exportCsv proj rs).ok = true := by
  obtain ⟨h1, h2⟩ := exportLoopS_total proj rs
    { resultSet := rs, fileRows := [proj.map Prod.fst], ok := true } h
  rw [exportCsv_eq]
  refine ⟨?_, h2⟩
  rw [h1]
  simp [Nat.add_comm]

/-- Witness for the amended C4 at a one-record result set carrying the
projected field. -/
theorem c4_rows_on_success_witness :
    (exportCsv [([ 'x' ], [ 'f' ])] [[([ 'f' ], [ 'v' ])]]).fileRows.length
        = [[([ 'f' ], [ 'v' ])]].length + 1 ∧
      (exportCsv [([ 'x' ], [ 'f' ])] [[([ 'f' ], [ 'v' ])]]).ok = true :=
  c4_rows_on_success _ _ (by decide)

/-- Counterexample to claim C2 as stated: on the end-to-end scenario the output
file content is not the three claimed lines; the third line for the second
record never appears (and the export does not succeed), because the second
mocked record has no Description field and the writerow tuple indexing raises
on it. -/
theorem c2_counterexample :
    ¬ ((exportCsv c2Proj c2Records).ok = true ∧
       fileContent (exportCsv c2Proj c2Records).fileRows
         = strChars (r"permit number,description") ++ ['\r', '\n']
           ++ strChars (r"A1,x") ++ ['\r', '\n']
           ++ strChars (r"A2,") ++ ['\r', '\n']) := by
  decide

/-- Claim C2 amended: on the stated scenario the Query Builder produces the
expected encoded URL and the Fetcher returns the mocked parsed body, but the
export aborts at the second record (its Description field is missing), so the
produced file holds exactly two lines, the header and the row for the first
record, and the export ends in failure instead of writing the claimed third
line. -/
theorem c2_pipeline_actual_output :
    build_url (strBytes (r"https://example.test/resource/abc.json"))
        [(strBytes (r"$limit"), strBytes (r"2"))]
      = strBytes (r"https://example.test/resource/abc.json?%24limit=2") ∧
    fetch { status := 200, body := some (recordsAsJson c2Records) }
      = Except.ok (recordsAsJson c2Records) ∧
    (exportCsv c2Proj c2Records).ok = false ∧
    fileContent (exportCsv c2Proj c2Records).fileRows
      = strChars (r"permit number,description") ++ ['\r', '\n']
        ++ strChars (r"A1,x") ++ ['\r', '\n'] := by
  refine ⟨by decide, rfl, by decide, by decide⟩

/-- Counterexample to claim C3 as stated: a 404 response whose body parses as
JSON is returned by the Fetcher as an ordinary result, not rejected with a
RequestError; nothing in the code inspects the status code. -/
theorem c3_counterexample :
    fetch { status := 404, body := some (Json.arr []) } = Except.ok (Json.arr []) := rfl

/-- Claim C3 amended: the Fetcher performs no status check at all: for every
response whose body parses as JSON, whatever the status code (404 included),
the parsed body is returned as the result; no RequestError exists in the code,
and any failure from a non-success response surfaces only later, downstream of
the fetch. -/
theorem c3_fetch_ignores_status (resp : HttpResponse) (j : Json)
    (h : resp.body = some j) : fetch resp = Except.ok j := by
  cases resp with
  | mk st body =>
    have h2 : body = some j := h
    subst h2
    rfl

/-- Witness for the amended C3 at a 500 response carrying a JSON string body. -/
theorem c3_fetch_ignores_status_witness :
    fetch { status := 500, body := some (Json.str [ 'e' ]) } = Except.ok (Json.str [ 'e' ]) :=
  c3_fetch_ignores_status _ _ rfl

/-- Counterexample to claim C7 as stated: a response whose body is valid JSON
but not an array of objects (a lone empty object, the shape a Socrata error
page takes) is not rejected with a DecodeError: the line bp_data =
bp_request.json() returns it as an ordinary result, so the Fetcher both fails
to raise and hands the non-array value onward, with no shape check anywhere. -/
theorem c7_counterexample :
    fetch { status := 200, body := some (Json.obj []) } = Except.ok (Json.obj []) ∧
    fetch { status := 200, body := some (Json.obj []) } ≠ Except.error FetchError.decodeError :=
  ⟨rfl, fun h => Except.noConfusion h⟩

/-- Claim C7 amended: the Fetcher fails with the decode error exactly when the
body is not valid JSON (the json method raising on an unparseable body is the
only failure in the fetch cell); any body that parses, array of objects or
not, is returned as the result unchanged, and the shape mismatch surfaces only
later, downstream of the fetch. -/
theorem c7_fetch_decode_error_iff (resp : HttpResponse) :
    (fetch resp = Except.error FetchError.decodeError ↔ resp.body = none) ∧
    (∀ j : Json, resp.body = some j → fetch resp = Except.ok j) := by
  cases resp with
  | mk st body =>
    cases body with
    | none =>
      refine ⟨⟨fun _ => rfl, fun _ => rfl⟩, fun j h => ?_⟩
      exact Option.noConfusion h
    | some j0 =>
      refine ⟨⟨fun h => ?_, fun h => ?_⟩, fun j h => ?_⟩
      · exact Except.noConfusion h
      · exact Option.noConfusion h
      · have hj : j0 = j := Option.some.inj h
        subst hj
        rfl

/-- Witness for the amended C7 at another non-array-of-objects shape: a JSON
array of numbers is returned unchanged. -/
theorem c7_fetch_decode_error_iff_witness :
    fetch { status := 200, body := some (Json.arr [Json.num 1]) }
      = Except.ok (Json.arr [Json.num 1]) :=
  (c7_fetch_decode_error_iff { status := 200, body := some (Json.arr [Json.num 1]) }).2
    (Json.arr [Json.num 1]) rfl
